import Mathlib

/-!
Verification of the m_malloc allocator (src/m_malloc.c).

The allocator is embedded shallowly.  All size_t arithmetic is carried out
in Nat reduced modulo M = 2^64 exactly where the C code wraps; addresses
are Nat values below M.  The target platform of the repository is
GNU/Linux on x86_64, where _Alignof(max_align_t) = 16 and
offsetof(Header, nextp) = sizeof(size_t) = 8.

The allocator state is a record: the free list is kept as the Lean list of
header addresses hanging off the sentinel head (head.nextp, then the nextp
chain until it cycles back to head), the data word of each header is a map
from addresses to Nat, payload bytes are a map from addresses to Nat, and
the sbrk primitive is modelled by the current break together with the
highest address the process may grow to (sbrk fails beyond it, mirroring
address-space exhaustion).
-/

set_option maxRecDepth 8000

namespace MMalloc

/-- Modulus of size_t / uintptr_t arithmetic on the target (64 bits). -/
def M : Nat := 2 ^ 64

/-- ALIGNMENT: _Alignof(max_align_t), the most restrictive alignment. -/
def ALIGNMENT : Nat := 16

/-- ALIGNMENT_MASK = ALIGNMENT - 1. -/
def ALIGNMENT_MASK : Nat := 15

/-- HEADER_SIZE = offsetof(Header, nextp) = sizeof(size_t). -/
def HEADER_SIZE : Nat := 8

/-- HEADER_OFFSET = ALIGNMENT - HEADER_SIZE. -/
def HEADER_OFFSET : Nat := 8

/-- ALLOC_FLAG: low bit of the data word marks an allocated block. -/
def ALLOC_FLAG : Nat := 1

/-- GET_ALIGNED_SIZE(size) = (HEADER_SIZE + size + ALIGNMENT_MASK) and
bitwise-not ALIGNMENT_MASK, computed in size_t arithmetic: the sum wraps
modulo M and the complement of the mask in 64 bits is M - ALIGNMENT. -/
def GET_ALIGNED_SIZE (size : Nat) : Nat :=
  ((HEADER_SIZE + size + ALIGNMENT_MASK) % M) &&& (M - ALIGNMENT)

/-- GET_ALIGNED_HEADER(size) = GET_ALIGNED_SIZE(size) - HEADER_SIZE, again
in wrapping size_t arithmetic. -/
def GET_ALIGNED_HEADER (size : Nat) : Nat :=
  (GET_ALIGNED_SIZE size + (M - HEADER_SIZE)) % M

/-- Bridge for masking with the complement of a low-bit mask: for an
in-range word, x AND (2^w - 2^k) rounds x down to a multiple of 2^k. -/
theorem and_two_pow_sub_two_pow {w k d : Nat} (hk : k ≤ w) (hd : d < 2 ^ w) :
    d &&& (2 ^ w - 2 ^ k) = d / 2 ^ k * 2 ^ k := by
  have hpow : 2 ^ k * 2 ^ (w - k) = 2 ^ w := by
    rw [← pow_add]
    congr 1
    omega
  have hmask : 2 ^ w - 2 ^ k = 2 ^ k * (2 ^ (w - k) - 1) := by
    rw [Nat.mul_sub, Nat.mul_one, hpow]
  apply Nat.eq_of_testBit_eq
  intro j
  rw [hmask, Nat.testBit_and, Nat.testBit_mul_pow_two]
  rw [show d / 2 ^ k * 2 ^ k = 2 ^ k * (d / 2 ^ k) from Nat.mul_comm _ _]
  rw [Nat.testBit_mul_pow_two]
  rw [show d / 2 ^ k = d >>> k from (Nat.shiftRight_eq_div_pow d k).symm]
  rw [Nat.testBit_shiftRight, Nat.testBit_two_pow_sub_one]
  by_cases hjk : k ≤ j
  · have hkj : k + (j - k) = j := by omega
    rw [hkj]
    by_cases hjw : j < w
    · have : j - k < w - k := by omega
      simp [ge_iff_le, hjk, this]
    · have hdj : d.testBit j = false :=
        Nat.testBit_lt_two_pow
          (lt_of_lt_of_le hd (Nat.pow_le_pow_right (by norm_num) (by omega)))
      have : ¬ (j - k < w - k) := by omega
      simp [ge_iff_le, hjk, this, hdj]
  · simp [ge_iff_le, hjk]

/-- Setting the low flag bit on a word whose low bit is clear adds one. -/
theorem or_one_of_sixteen_dvd {d : Nat} (h : d % 16 = 0) : d ||| 1 = d + 1 := by
  have h1 : (1 : Nat) < 2 ^ 4 := by norm_num
  have hd : d = 2 ^ 4 * (d / 16) := by omega
  calc d ||| 1 = 2 ^ 4 * (d / 16) ||| 1 := by rw [← hd]
    _ = 2 ^ 4 * (d / 16) + 1 := (Nat.mul_add_lt_is_or h1 _).symm
    _ = d + 1 := by rw [← hd]

/-- The heap state of the allocator.

freeList abstracts the cyclic sentinel list: it is the sequence of header
addresses reached from head.nextp before the chain returns to head, in
link order.  The intrusive nextp fields of the C code are represented by
this list; hdr maps a header address to its data word, mem maps a byte
address to its contents, brk is the current program break and sbrkLimit
the last address the break may grow to. -/
structure AllocState where
  freeList : List Nat
  hdr : Nat → Nat
  mem : Nat → Nat
  brk : Nat
  sbrkLimit : Nat

/-- get_size: data word with the flag bits masked off (data AND the size_t
complement of ALIGNMENT_MASK). -/
def get_size (st : AllocState) (header : Nat) : Nat :=
  st.hdr header &&& (M - ALIGNMENT)

/-- set_size: store a size value in the header data word. -/
def set_size (st : AllocState) (header size : Nat) : AllocState :=
  { st with hdr := fun a => if a = header then size else st.hdr a }

/-- set_alloc: set or clear ALLOC_FLAG via bitwise or / and with the
size_t complement of ALLOC_FLAG. -/
def set_alloc (st : AllocState) (header : Nat) (t : Bool) : AllocState :=
  { st with
    hdr := fun a =>
      if a = header then
        if t then st.hdr header ||| ALLOC_FLAG
        else st.hdr header &&& (M - 2)
      else st.hdr a }

/-- is_alloc: the data word masked with ALLOC_FLAG. -/
def is_alloc (st : AllocState) (header : Nat) : Nat :=
  st.hdr header &&& ALLOC_FLAG

/-- get_payload_ptr: the address of the nextp field, header + HEADER_SIZE
as a pointer value. -/
def get_payload_ptr (header : Nat) : Nat :=
  (header + HEADER_SIZE) % M

/-- extend_heap: sbrk(incr) returns the old break and advances it, or
fails when the address space cannot grow past sbrkLimit. -/
def extend_heap (st : AllocState) (incr : Nat) : Option (Nat × AllocState) :=
  if st.brk + incr ≤ st.sbrkLimit then
    some (st.brk, { st with brk := st.brk + incr })
  else
    none

/-- internal_free: clear the allocation flag, then link the block in
right after the sentinel head (set_nextp(header, head.nextp);
set_nextp(head, header)). -/
def internal_free (st : AllocState) (header : Nat) : AllocState :=
  let st1 := set_alloc st header false
  { st1 with freeList := header :: st1.freeList }

/-- One pass of the first-fit search of m_malloc: walk the free list from
the block after head; the first block whose size is at least asize is
unlinked (the predecessor is relinked to its successor) and returned
together with the remaining list. -/
def firstFit (st : AllocState) : List Nat → Nat → Option (Nat × List Nat)
  | [], _ => none
  | h :: t, asize =>
    if get_size st h ≥ asize then
      some (h, t)
    else
      match firstFit st t asize with
      | some (b, t2) => some (b, h :: t2)
      | none => none

/-- The body of the m_malloc for loop, one round per unit of fuel: search
the free list; on a fit, unlink the block, set its flag and return its
payload pointer; otherwise request size + ALIGNMENT more bytes (wrapping
size_t arithmetic), give up with null if sbrk fails, else carve the new
block (either the whole grant at the already correctly offset start, or a
block of exactly the rounded size at the next correctly offset address),
insert it with internal_free and loop.  A none result means the fuel ran
out: the C loop would keep extending without returning (this genuinely
happens when size + ALIGNMENT wraps to 0, see mallocLoop_wrap_spins). -/
def mallocLoop (asize : Nat) : Nat → AllocState → Option (Option Nat × AllocState)
  | 0, _ => none
  | fuel + 1, st =>
    match firstFit st st.freeList asize with
    | some (blk, rest) =>
      let st1 := set_alloc { st with freeList := rest } blk true
      some (some (get_payload_ptr blk), st1)
    | none =>
      match extend_heap st ((asize + ALIGNMENT) % M) with
      | none => some (none, st)
      | some (b, st1) =>
        if b % ALIGNMENT ≠ HEADER_OFFSET then
          mallocLoop asize fuel (internal_free (set_size st1 (GET_ALIGNED_HEADER b) asize) (GET_ALIGNED_HEADER b))
        else
          mallocLoop asize fuel (internal_free (set_size st1 b ((asize + ALIGNMENT) % M)) b)

/-- m_malloc: null for size 0, otherwise run the loop on the rounded
size.  Fuel 2 covers one search pass plus one extension round; theorem
mallocLoop_fuel_mono shows any result reached with some fuel is the
result for all larger fuel, so fuel 2 is exact whenever the loop
terminates within one extension, and the loop never terminates at all in
the only situation where fuel 2 runs out (see mallocLoop_wrap_spins). -/
def m_malloc (st : AllocState) (size : Nat) : Option (Option Nat × AllocState) :=
  if size = 0 then some (none, st)
  else mallocLoop (GET_ALIGNED_SIZE size) 2 st

/-- memset(p, val, n) on the byte memory. -/
def memset (st : AllocState) (p val n : Nat) : AllocState :=
  { st with mem := fun a => if p ≤ a ∧ a < p + n then val else st.mem a }

/-- memcpy(dst, src, n) on the byte memory: every destination byte takes
the value the source byte had before the call (the C call requires the
regions not to overlap). -/
def memcpy (st : AllocState) (dst src n : Nat) : AllocState :=
  { st with mem := fun a => if dst ≤ a ∧ a < dst + n then st.mem (src + (a - dst)) else st.mem a }

/-- m_calloc: compute nmemb * size in wrapping size_t arithmetic, fail on
the division-based overflow test, otherwise allocate and zero-fill. -/
def m_calloc (st : AllocState) (nmemb size : Nat) : Option (Option Nat × AllocState) :=
  let total_size := (nmemb * size) % M
  if nmemb ≠ 0 ∧ total_size / nmemb ≠ size then some (none, st)
  else
    match m_malloc st total_size with
    | none => none
    | some (none, st1) => some (none, st1)
    | some (some p, st1) => some (some p, memset st1 p 0 total_size)

/-- ptr - HEADER_SIZE: recover the owning header address of a payload
pointer, in wrapping pointer arithmetic. -/
def hdrOf (ptr : Nat) : Nat :=
  (ptr + (M - HEADER_SIZE)) % M

/-- m_free: convert the payload pointer back to its header by subtracting
HEADER_SIZE in wrapping pointer arithmetic, then internal_free.  There is
no null check in the C code. -/
def m_free (st : AllocState) (ptr : Nat) : AllocState :=
  internal_free st (hdrOf ptr)

/-- m_realloc: null pointer delegates to m_malloc; otherwise read the old
data word size (the total block size), allocate the new size, and on
success copy the smaller of the old total size and the requested size,
free the old pointer and return the new one.  On allocation failure the
old block is left alone. -/
def m_realloc (st : AllocState) (ptr size : Nat) : Option (Option Nat × AllocState) :=
  if ptr = 0 then m_malloc st size
  else
    let prev_size := get_size st (hdrOf ptr)
    match m_malloc st size with
    | none => none
    | some (none, st1) => some (none, st1)
    | some (some np, st1) =>
      some (some np, m_free (memcpy st1 np ptr (if prev_size < size then prev_size else size)) ptr)

/-! ### Arithmetic facts about the size rounding and the header codec -/

theorem M_val : M = 18446744073709551616 := by norm_num [M]

theorem GET_ALIGNED_SIZE_eq (s : Nat) :
    GET_ALIGNED_SIZE s = ((HEADER_SIZE + s + ALIGNMENT_MASK) % M) / ALIGNMENT * ALIGNMENT := by
  have h : ((HEADER_SIZE + s + ALIGNMENT_MASK) % M) < 2 ^ 64 :=
    Nat.mod_lt _ (by norm_num [M])
  have := and_two_pow_sub_two_pow (w := 64) (k := 4) (by norm_num) h
  simpa [GET_ALIGNED_SIZE, ALIGNMENT, M] using this

theorem GET_ALIGNED_SIZE_mod (s : Nat) : GET_ALIGNED_SIZE s % 16 = 0 := by
  rw [GET_ALIGNED_SIZE_eq]
  simp [ALIGNMENT, Nat.mul_mod_left]

theorem GET_ALIGNED_SIZE_lt (s : Nat) : GET_ALIGNED_SIZE s < M := by
  rw [GET_ALIGNED_SIZE_eq]
  have h : ((HEADER_SIZE + s + ALIGNMENT_MASK) % M) < M := Nat.mod_lt _ (by norm_num [M])
  have := Nat.div_mul_le_self ((HEADER_SIZE + s + ALIGNMENT_MASK) % M) 16
  simp only [ALIGNMENT]
  omega

theorem GET_ALIGNED_SIZE_nowrap {s : Nat} (h : s + 23 < M) :
    GET_ALIGNED_SIZE s = (s + 23) / 16 * 16 := by
  rw [GET_ALIGNED_SIZE_eq]
  simp only [HEADER_SIZE, ALIGNMENT_MASK, ALIGNMENT]
  rw [show 8 + s + 15 = s + 23 by omega, Nat.mod_eq_of_lt h]

theorem GET_ALIGNED_SIZE_ge {s : Nat} (h : s + 23 < M) :
    HEADER_SIZE + s ≤ GET_ALIGNED_SIZE s := by
  rw [GET_ALIGNED_SIZE_nowrap h]
  simp only [HEADER_SIZE]
  omega

theorem GET_ALIGNED_SIZE_least {s m : Nat} (h : s + 23 < M)
    (hm : m % ALIGNMENT = 0) (hge : HEADER_SIZE + s ≤ m) :
    GET_ALIGNED_SIZE s ≤ m := by
  rw [GET_ALIGNED_SIZE_nowrap h]
  simp only [HEADER_SIZE, ALIGNMENT] at *
  omega

theorem GET_ALIGNED_SIZE_mono {s1 s2 : Nat} (h12 : s1 ≤ s2) (h : s2 + 23 < M) :
    GET_ALIGNED_SIZE s1 ≤ GET_ALIGNED_SIZE s2 := by
  rw [GET_ALIGNED_SIZE_nowrap (by omega), GET_ALIGNED_SIZE_nowrap h]
  omega

theorem GET_ALIGNED_SIZE_overflow {s : Nat} (h1 : M - 24 < s) (h2 : s < M) :
    GET_ALIGNED_SIZE s ≤ 16 := by
  rw [GET_ALIGNED_SIZE_eq]
  simp only [HEADER_SIZE, ALIGNMENT_MASK, ALIGNMENT]
  have hM : M = 18446744073709551616 := M_val
  have heq : (8 + s + 15) % M = s + 23 - M := by
    rw [show 8 + s + 15 = s + 23 by omega]
    have : s + 23 - M < M := by omega
    rw [show s + 23 = (s + 23 - M) + 1 * M by omega]
    simp [Nat.add_mul_mod_self_right, Nat.mod_eq_of_lt this]
  rw [heq]
  omega

theorem GET_ALIGNED_HEADER_mod (b : Nat) : GET_ALIGNED_HEADER b % 16 = 8 := by
  have h1 : GET_ALIGNED_SIZE b % 16 = 0 := GET_ALIGNED_SIZE_mod b
  have h2 : (GET_ALIGNED_SIZE b + (M - HEADER_SIZE)) % M % 16 =
      (GET_ALIGNED_SIZE b + (M - HEADER_SIZE)) % 16 :=
    Nat.mod_mod_of_dvd _ (by norm_num [M])
  rw [GET_ALIGNED_HEADER, h2]
  simp only [HEADER_SIZE]
  have hM : M = 18446744073709551616 := M_val
  omega

theorem GET_ALIGNED_HEADER_nowrap {b : Nat} (h : b + 23 < M) :
    b ≤ GET_ALIGNED_HEADER b ∧ GET_ALIGNED_HEADER b ≤ b + 15 := by
  have hge : HEADER_SIZE + b ≤ GET_ALIGNED_SIZE b := GET_ALIGNED_SIZE_ge h
  have hle : GET_ALIGNED_SIZE b ≤ b + 23 := by
    rw [GET_ALIGNED_SIZE_nowrap h]
    omega
  simp only [HEADER_SIZE] at hge
  rw [GET_ALIGNED_HEADER]
  have hM : M = 18446744073709551616 := M_val
  have heq : (GET_ALIGNED_SIZE b + (M - 8)) % M = GET_ALIGNED_SIZE b - 8 := by
    rw [show GET_ALIGNED_SIZE b + (M - 8) = (GET_ALIGNED_SIZE b - 8) + 1 * M by omega]
    simp [Nat.add_mul_mod_self_right]
    exact Nat.mod_eq_of_lt (by omega)
  simp only [HEADER_SIZE, heq]
  omega

theorem and_flag_clear_eq {d : Nat} (h16 : d % 16 = 0) (hlt : d < M) :
    d &&& (M - 2) = d := by
  have := and_two_pow_sub_two_pow (w := 64) (k := 1) (by norm_num) (by rw [M_val] at hlt; exact (by omega : d < 2 ^ 64))
  have h2 : M - 2 = 2 ^ 64 - 2 ^ 1 := by rw [M_val]; norm_num
  rw [h2, this]
  omega

theorem and_flag_set_clear_eq {d : Nat} (h16 : d % 16 = 0) (hlt : d < M) :
    (d + 1) &&& (M - 2) = d := by
  have hlt2 : d + 1 < 2 ^ 64 := by rw [M_val] at hlt; omega
  have := and_two_pow_sub_two_pow (w := 64) (k := 1) (by norm_num) hlt2
  have h2 : M - 2 = 2 ^ 64 - 2 ^ 1 := by rw [M_val]; norm_num
  rw [h2, this]
  omega

theorem get_size_eq_of {st : AllocState} {h d : Nat}
    (hd : st.hdr h = d) (h16 : d % 16 = 0) (hlt : d < M) :
    get_size st h = d := by
  have hlt2 : d < 2 ^ 64 := by rw [M_val] at hlt; omega
  have := and_two_pow_sub_two_pow (w := 64) (k := 4) (by norm_num) hlt2
  have h2 : M - ALIGNMENT = 2 ^ 64 - 2 ^ 4 := by rw [M_val]; norm_num [ALIGNMENT]
  rw [get_size, hd, h2, this]
  omega

theorem get_size_eq_of_flagged {st : AllocState} {h d : Nat}
    (hd : st.hdr h = d + 1) (h16 : d % 16 = 0) (hlt : d < M) :
    get_size st h = d := by
  have hlt2 : d + 1 < 2 ^ 64 := by rw [M_val] at hlt; omega
  have := and_two_pow_sub_two_pow (w := 64) (k := 4) (by norm_num) hlt2
  have h2 : M - ALIGNMENT = 2 ^ 64 - 2 ^ 4 := by rw [M_val]; norm_num [ALIGNMENT]
  rw [get_size, hd, h2, this]
  omega

/-! ### Facts about the first-fit search -/

theorem firstFit_cons_fit {st : AllocState} {h asize : Nat} (t : List Nat)
    (hfit : asize ≤ get_size st h) :
    firstFit st (h :: t) asize = some (h, t) := by
  simp [firstFit, hfit]

theorem firstFit_isNone (st : AllocState) {asize : Nat} :
    ∀ (fl : List Nat), (∀ h ∈ fl, get_size st h < asize) →
      firstFit st fl asize = none
  | [], _ => rfl
  | h :: t, hall => by
    have h1 : ¬ (get_size st h ≥ asize) := by
      have := hall h (by simp)
      omega
    simp only [firstFit, if_neg h1]
    rw [firstFit_isNone st t (fun x hx => hall x (by simp [hx]))]

theorem firstFit_none_forall (st : AllocState) :
    ∀ (fl : List Nat) (asize : Nat), firstFit st fl asize = none →
      ∀ h ∈ fl, get_size st h < asize
  | [], _, _ => by simp
  | h :: t, asize, hnone => by
    by_cases hfit : get_size st h ≥ asize
    · rw [firstFit_cons_fit t hfit] at hnone
      exact absurd hnone (by simp)
    · intro x hx
      rcases List.mem_cons.mp hx with rfl | hx2
      · omega
      · simp only [firstFit, if_neg hfit] at hnone
        cases hrec : firstFit st t asize with
        | some r => rw [hrec] at hnone; exact absurd hnone (by simp)
        | none => exact firstFit_none_forall st t asize hrec x hx2

theorem firstFit_some {st : AllocState} {asize b : Nat} :
    ∀ {fl rest : List Nat}, firstFit st fl asize = some (b, rest) →
      asize ≤ get_size st b ∧ ∃ l1 l2, fl = l1 ++ b :: l2 ∧ rest = l1 ++ l2
  | [], rest, hff => by simp [firstFit] at hff
  | h :: t, rest, hff => by
    by_cases hfit : get_size st h ≥ asize
    · rw [firstFit_cons_fit t hfit] at hff
      injection hff with h1
      injection h1 with hb ht
      subst hb
      subst ht
      exact ⟨hfit, [], t, by simp, by simp⟩
    · simp only [firstFit, if_neg hfit] at hff
      cases hrec : firstFit st t asize with
      | none => rw [hrec] at hff; exact absurd hff (by simp)
      | some r =>
        obtain ⟨b2, rest2⟩ := r
        rw [hrec] at hff
        injection hff with h1
        injection h1 with hb ht
        subst hb
        subst ht
        obtain ⟨hsz, l1, l2, hfl, hrest⟩ := firstFit_some hrec
        exact ⟨hsz, h :: l1, l2, by simp [hfl], by simp [hrest]⟩

theorem firstFit_mem {st : AllocState} {fl : List Nat} {asize b : Nat} {rest : List Nat}
    (hff : firstFit st fl asize = some (b, rest)) : b ∈ fl := by
  obtain ⟨_, l1, l2, hfl, _⟩ := firstFit_some hff
  simp [hfl]

theorem firstFit_rest_subset {st : AllocState} {fl : List Nat} {asize b : Nat}
    {rest : List Nat} (hff : firstFit st fl asize = some (b, rest)) :
    ∀ x ∈ rest, x ∈ fl := by
  obtain ⟨_, l1, l2, hfl, hrest⟩ := firstFit_some hff
  intro x hx
  rw [hrest] at hx
  rw [hfl]
  simp at hx ⊢
  tauto

/-! ### Behaviour of one malloc round -/

/-- Address of the block carved out of a fresh sbrk grant: the grant
start itself when it already sits at HEADER_OFFSET modulo ALIGNMENT,
otherwise the next address with that offset. -/
def newBlockAddr (st : AllocState) : Nat :=
  if st.brk % ALIGNMENT ≠ HEADER_OFFSET then GET_ALIGNED_HEADER st.brk else st.brk

/-- Size stored into a block carved out of a fresh grant: the rounded
request when the grant had to be advanced, the full grant otherwise. -/
def newBlockSize (st : AllocState) (asize : Nat) : Nat :=
  if st.brk % ALIGNMENT ≠ HEADER_OFFSET then asize else (asize + ALIGNMENT) % M

theorem newBlockAddr_mod (st : AllocState) : newBlockAddr st % 16 = 8 := by
  rw [newBlockAddr]
  by_cases h : st.brk % ALIGNMENT ≠ HEADER_OFFSET
  · rw [if_pos h]
    exact GET_ALIGNED_HEADER_mod st.brk
  · rw [if_neg h]
    simp only [ALIGNMENT, HEADER_OFFSET] at h
    omega

theorem newBlockSize_mod (st : AllocState) (s : Nat) :
    newBlockSize st (GET_ALIGNED_SIZE s) % 16 = 0 := by
  rw [newBlockSize]
  by_cases h : st.brk % ALIGNMENT ≠ HEADER_OFFSET
  · rw [if_pos h]
    exact GET_ALIGNED_SIZE_mod s
  · rw [if_neg h]
    have h1 : (GET_ALIGNED_SIZE s + ALIGNMENT) % M % 16 =
        (GET_ALIGNED_SIZE s + ALIGNMENT) % 16 :=
      Nat.mod_mod_of_dvd _ (by norm_num [M])
    have h2 := GET_ALIGNED_SIZE_mod s
    rw [h1]
    simp only [ALIGNMENT]
    omega

theorem newBlockSize_lt (st : AllocState) (s : Nat) :
    newBlockSize st (GET_ALIGNED_SIZE s) < M := by
  rw [newBlockSize]
  by_cases h : st.brk % ALIGNMENT ≠ HEADER_OFFSET
  · rw [if_pos h]
    exact GET_ALIGNED_SIZE_lt s
  · rw [if_neg h]
    exact Nat.mod_lt _ (by norm_num [M])

theorem get_payload_ptr_mod {h : Nat} (hh : h % 16 = 8) :
    get_payload_ptr h % 16 = 0 := by
  rw [get_payload_ptr]
  have h1 : (h + HEADER_SIZE) % M % 16 = (h + HEADER_SIZE) % 16 :=
    Nat.mod_mod_of_dvd _ (by norm_num [M])
  rw [h1]
  simp only [HEADER_SIZE]
  omega

theorem get_payload_ptr_eq {h : Nat} (hh : h + HEADER_SIZE < M) :
    get_payload_ptr h = h + HEADER_SIZE :=
  Nat.mod_eq_of_lt hh

/-! Record projections of the state transformers, for rewriting. -/

@[simp] theorem set_size_hdr (st : AllocState) (h v a : Nat) :
    (set_size st h v).hdr a = if a = h then v else st.hdr a := rfl

@[simp] theorem set_size_freeList (st : AllocState) (h v : Nat) :
    (set_size st h v).freeList = st.freeList := rfl

@[simp] theorem set_size_mem (st : AllocState) (h v : Nat) :
    (set_size st h v).mem = st.mem := rfl

@[simp] theorem set_size_brk (st : AllocState) (h v : Nat) :
    (set_size st h v).brk = st.brk := rfl

@[simp] theorem set_size_sbrkLimit (st : AllocState) (h v : Nat) :
    (set_size st h v).sbrkLimit = st.sbrkLimit := rfl

@[simp] theorem set_alloc_hdr (st : AllocState) (h : Nat) (t : Bool) (a : Nat) :
    (set_alloc st h t).hdr a =
      if a = h then
        (if t then st.hdr h ||| ALLOC_FLAG else st.hdr h &&& (M - 2))
      else st.hdr a := rfl

@[simp] theorem set_alloc_freeList (st : AllocState) (h : Nat) (t : Bool) :
    (set_alloc st h t).freeList = st.freeList := rfl

@[simp] theorem set_alloc_mem (st : AllocState) (h : Nat) (t : Bool) :
    (set_alloc st h t).mem = st.mem := rfl

@[simp] theorem set_alloc_brk (st : AllocState) (h : Nat) (t : Bool) :
    (set_alloc st h t).brk = st.brk := rfl

@[simp] theorem set_alloc_sbrkLimit (st : AllocState) (h : Nat) (t : Bool) :
    (set_alloc st h t).sbrkLimit = st.sbrkLimit := rfl

@[simp] theorem internal_free_hdr (st : AllocState) (h a : Nat) :
    (internal_free st h).hdr a =
      if a = h then st.hdr h &&& (M - 2) else st.hdr a := rfl

theorem internal_free_hdr_self (st : AllocState) (h : Nat) :
    (internal_free st h).hdr h = st.hdr h &&& (M - 2) := by
  simp

@[simp] theorem internal_free_freeList (st : AllocState) (h : Nat) :
    (internal_free st h).freeList = h :: st.freeList := rfl

@[simp] theorem internal_free_mem (st : AllocState) (h : Nat) :
    (internal_free st h).mem = st.mem := rfl

@[simp] theorem internal_free_brk (st : AllocState) (h : Nat) :
    (internal_free st h).brk = st.brk := rfl

@[simp] theorem internal_free_sbrkLimit (st : AllocState) (h : Nat) :
    (internal_free st h).sbrkLimit = st.sbrkLimit := rfl

@[simp] theorem memset_hdr (st : AllocState) (p v n : Nat) :
    (memset st p v n).hdr = st.hdr := rfl

@[simp] theorem memset_freeList (st : AllocState) (p v n : Nat) :
    (memset st p v n).freeList = st.freeList := rfl

@[simp] theorem memset_brk (st : AllocState) (p v n : Nat) :
    (memset st p v n).brk = st.brk := rfl

@[simp] theorem memset_sbrkLimit (st : AllocState) (p v n : Nat) :
    (memset st p v n).sbrkLimit = st.sbrkLimit := rfl

@[simp] theorem memset_mem (st : AllocState) (p v n a : Nat) :
    (memset st p v n).mem a = if p ≤ a ∧ a < p + n then v else st.mem a := rfl

@[simp] theorem memcpy_hdr (st : AllocState) (d s n : Nat) :
    (memcpy st d s n).hdr = st.hdr := rfl

@[simp] theorem memcpy_freeList (st : AllocState) (d s n : Nat) :
    (memcpy st d s n).freeList = st.freeList := rfl

@[simp] theorem memcpy_brk (st : AllocState) (d s n : Nat) :
    (memcpy st d s n).brk = st.brk := rfl

@[simp] theorem memcpy_sbrkLimit (st : AllocState) (d s n : Nat) :
    (memcpy st d s n).sbrkLimit = st.sbrkLimit := rfl

@[simp] theorem memcpy_mem (st : AllocState) (d s n a : Nat) :
    (memcpy st d s n).mem a =
      if d ≤ a ∧ a < d + n then st.mem (s + (a - d)) else st.mem a := rfl

/-- Fit on the first pass: the block is unlinked, flagged and its payload
address returned; nothing else changes. -/
theorem malloc_fit {st : AllocState} {s blk : Nat} {rest : List Nat} (hs : s ≠ 0)
    (hff : firstFit st st.freeList (GET_ALIGNED_SIZE s) = some (blk, rest)) :
    ∃ stF, m_malloc st s = some (some (get_payload_ptr blk), stF) ∧
      stF.freeList = rest ∧ stF.brk = st.brk ∧ stF.sbrkLimit = st.sbrkLimit ∧
      stF.mem = st.mem ∧ stF.hdr blk = st.hdr blk ||| 1 ∧
      (∀ a, a ≠ blk → stF.hdr a = st.hdr a) := by
  refine ⟨set_alloc { st with freeList := rest } blk true, ?_, ?_, ?_, ?_, ?_, ?_, ?_⟩
  · simp only [m_malloc, if_neg hs, mallocLoop, hff]
  · rfl
  · rfl
  · rfl
  · rfl
  · simp [ALLOC_FLAG]
  · intro a ha
    simp [ha]

/-- No fit and the extension request fails: m_malloc returns null with
the state untouched. -/
theorem malloc_extfail {st : AllocState} {s : Nat} (hs : s ≠ 0)
    (hff : firstFit st st.freeList (GET_ALIGNED_SIZE s) = none)
    (hfail : ¬ st.brk + (GET_ALIGNED_SIZE s + ALIGNMENT) % M ≤ st.sbrkLimit) :
    m_malloc st s = some (none, st) := by
  simp only [m_malloc, if_neg hs, mallocLoop, hff, extend_heap, if_neg hfail]

/-- Unfolding of the extension round of the loop. -/
theorem mallocLoop_ext_step {st : AllocState} {asize fuel : Nat}
    (hff : firstFit st st.freeList asize = none)
    (hok : st.brk + (asize + ALIGNMENT) % M ≤ st.sbrkLimit) :
    mallocLoop asize (fuel + 1) st =
      mallocLoop asize fuel
        (internal_free
          (set_size { st with brk := st.brk + (asize + ALIGNMENT) % M }
            (newBlockAddr st) (newBlockSize st asize))
          (newBlockAddr st)) := by
  simp only [mallocLoop, hff, extend_heap, if_pos hok, newBlockAddr, newBlockSize]
  by_cases hal : st.brk % ALIGNMENT ≠ HEADER_OFFSET
  · rw [if_pos hal, if_pos hal, if_pos hal]
  · rw [if_neg hal, if_neg hal, if_neg hal]

/-- No fit, successful extension, and the carved block is big enough: it
is found at the head of the list on the very next pass of the loop and
returned; the free list ends as it started. -/
theorem malloc_ext_ok {st : AllocState} {s : Nat} (hs : s ≠ 0)
    (hff : firstFit st st.freeList (GET_ALIGNED_SIZE s) = none)
    (hok : st.brk + (GET_ALIGNED_SIZE s + ALIGNMENT) % M ≤ st.sbrkLimit)
    (hfits : GET_ALIGNED_SIZE s ≤ newBlockSize st (GET_ALIGNED_SIZE s)) :
    ∃ stF, m_malloc st s = some (some (get_payload_ptr (newBlockAddr st)), stF) ∧
      stF.freeList = st.freeList ∧
      stF.brk = st.brk + (GET_ALIGNED_SIZE s + ALIGNMENT) % M ∧
      stF.sbrkLimit = st.sbrkLimit ∧
      stF.mem = st.mem ∧
      stF.hdr (newBlockAddr st) = newBlockSize st (GET_ALIGNED_SIZE s) + 1 ∧
      (∀ a, a ≠ newBlockAddr st → stF.hdr a = st.hdr a) := by
  have hv16 : newBlockSize st (GET_ALIGNED_SIZE s) % 16 = 0 := newBlockSize_mod st s
  have hvlt : newBlockSize st (GET_ALIGNED_SIZE s) < M := newBlockSize_lt st s
  obtain ⟨stMid, hstMid⟩ : ∃ stMid, stMid = internal_free
      (set_size { st with brk := st.brk + (GET_ALIGNED_SIZE s + ALIGNMENT) % M }
        (newBlockAddr st) (newBlockSize st (GET_ALIGNED_SIZE s)))
      (newBlockAddr st) := ⟨_, rfl⟩
  have hmid_hdr_nb : stMid.hdr (newBlockAddr st) = newBlockSize st (GET_ALIGNED_SIZE s) := by
    rw [hstMid]
    simp only [internal_free_hdr, set_size_hdr, if_pos rfl]
    exact and_flag_clear_eq hv16 hvlt
  have hmid_hdr : ∀ a, a ≠ newBlockAddr st → stMid.hdr a = st.hdr a := by
    intro a ha
    rw [hstMid]
    simp [ha]
  have hmid_fl : stMid.freeList = newBlockAddr st :: st.freeList := by
    rw [hstMid]
    simp
  have hmid_size : get_size stMid (newBlockAddr st) = newBlockSize st (GET_ALIGNED_SIZE s) :=
    get_size_eq_of hmid_hdr_nb hv16 hvlt
  have hm : m_malloc st s = mallocLoop (GET_ALIGNED_SIZE s) 1 stMid := by
    rw [m_malloc, if_neg hs, mallocLoop_ext_step hff hok, hstMid]
  have hfit2 : firstFit stMid stMid.freeList (GET_ALIGNED_SIZE s) =
      some (newBlockAddr st, st.freeList) := by
    rw [hmid_fl]
    exact firstFit_cons_fit _ (by rw [hmid_size]; exact hfits)
  refine ⟨set_alloc { stMid with freeList := st.freeList } (newBlockAddr st) true,
    ?_, ?_, ?_, ?_, ?_, ?_, ?_⟩
  · rw [hm]
    simp only [mallocLoop, hfit2]
  · rfl
  · rw [hstMid]; simp
  · rw [hstMid]; simp
  · rw [hstMid]; simp
  · show (set_alloc { stMid with freeList := st.freeList } (newBlockAddr st) true).hdr
        (newBlockAddr st) = newBlockSize st (GET_ALIGNED_SIZE s) + 1
    simp only [set_alloc_hdr, if_pos rfl]
    show stMid.hdr (newBlockAddr st) ||| ALLOC_FLAG = _
    rw [hmid_hdr_nb, ALLOC_FLAG]
    exact or_one_of_sixteen_dvd hv16
  · intro a ha
    show (set_alloc { stMid with freeList := st.freeList } (newBlockAddr st) true).hdr a
        = st.hdr a
    simp only [set_alloc_hdr, if_neg ha]
    exact hmid_hdr a ha

/-- When size + ALIGNMENT wraps to 0 and the grant start is already at
the right offset, every round of the loop re-extends by 0 bytes, carves
a block of recorded size 0 that can never satisfy the pending request,
and the loop never returns. -/
theorem mallocLoop_wrap_spins :
    ∀ (fuel : Nat) (st : AllocState), st.brk % 16 = 8 → st.brk ≤ st.sbrkLimit →
      (∀ h ∈ st.freeList, get_size st h < M - 16) →
      mallocLoop (M - 16) fuel st = none
  | 0, _, _, _, _ => rfl
  | fuel + 1, st, hal, hlim, hsmall => by
    have hff : firstFit st st.freeList (M - 16) = none :=
      firstFit_isNone st _ hsmall
    have hincr : (M - 16 + ALIGNMENT) % M = 0 := by
      have : M - 16 + ALIGNMENT = M := by rw [M_val]; norm_num [ALIGNMENT]
      rw [this, Nat.mod_self]
    have hok : st.brk + (M - 16 + ALIGNMENT) % M ≤ st.sbrkLimit := by
      rw [hincr]
      omega
    rw [mallocLoop_ext_step hff hok]
    have hal2 : ¬ st.brk % ALIGNMENT ≠ HEADER_OFFSET := by
      simp only [ALIGNMENT, HEADER_OFFSET]
      omega
    obtain ⟨stMid, hstMid⟩ : ∃ stMid, stMid = internal_free
        (set_size { st with brk := st.brk + (M - 16 + ALIGNMENT) % M }
          (newBlockAddr st) (newBlockSize st (M - 16))) (newBlockAddr st) := ⟨_, rfl⟩
    have hnb : newBlockAddr st = st.brk := by
      rw [newBlockAddr, if_neg hal2]
    have hv : newBlockSize st (M - 16) = 0 := by
      rw [newBlockSize, if_neg hal2, hincr]
    rw [← hstMid]
    apply mallocLoop_wrap_spins fuel stMid
    · rw [hstMid, hincr]
      simpa using hal
    · rw [hstMid, hincr]
      simpa using hlim
    · intro h hh
      have hfl : stMid.freeList = st.brk :: st.freeList := by
        rw [hstMid, hnb]
        simp
      rw [hfl] at hh
      by_cases hhb : h = st.brk
      · have hh0 : stMid.hdr h = 0 := by
          rw [hstMid, hnb, hv]
          simp [hhb]
        have h0 : get_size stMid h = 0 := by
          rw [get_size, hh0]
          simp
        rw [h0, M_val]
        omega
      · have hmem : h ∈ st.freeList := by
          rcases List.mem_cons.mp hh with h1 | h1
          · exact absurd h1 hhb
          · exact h1
        have heq : stMid.hdr h = st.hdr h := by
          rw [hstMid, hnb]
          simp [hhb]
        rw [get_size, heq, ← get_size]
        exact hsmall h hmem

/-- One-step unfolding of mallocLoop at positive fuel. -/
theorem mallocLoop_eq (asize fuel : Nat) (st : AllocState) :
    mallocLoop asize (fuel + 1) st =
      match firstFit st st.freeList asize with
      | some (blk, rest) =>
        some (some (get_payload_ptr blk),
          set_alloc { st with freeList := rest } blk true)
      | none =>
        match extend_heap st ((asize + ALIGNMENT) % M) with
        | none => some (none, st)
        | some (b, st1) =>
          if b % ALIGNMENT ≠ HEADER_OFFSET then
            mallocLoop asize fuel (internal_free (set_size st1 (GET_ALIGNED_HEADER b) asize) (GET_ALIGNED_HEADER b))
          else
            mallocLoop asize fuel (internal_free (set_size st1 b ((asize + ALIGNMENT) % M)) b) := rfl

/-- More fuel never changes a result the loop already reached. -/
theorem mallocLoop_succ {asize : Nat} :
    ∀ (fuel : Nat) (st : AllocState) (r : Option Nat × AllocState),
      mallocLoop asize fuel st = some r → mallocLoop asize (fuel + 1) st = some r
  | 0, st, r, h => by simp [mallocLoop] at h
  | fuel + 1, st, r, h => by
    rw [mallocLoop_eq] at h
    rw [mallocLoop_eq]
    cases hff : firstFit st st.freeList asize with
    | some p =>
      obtain ⟨blk, rest⟩ := p
      simp only [hff] at h ⊢
      exact h
    | none =>
      simp only [hff] at h ⊢
      cases hext : extend_heap st ((asize + ALIGNMENT) % M) with
      | none => simp only [hext] at h ⊢; exact h
      | some p =>
        obtain ⟨b, st1⟩ := p
        simp only [hext] at h ⊢
        by_cases hal : b % ALIGNMENT ≠ HEADER_OFFSET
        · rw [if_pos hal] at h ⊢
          exact mallocLoop_succ fuel _ r h
        · rw [if_neg hal] at h ⊢
          exact mallocLoop_succ fuel _ r h

/-- Fuel monotonicity of the loop result. -/
theorem mallocLoop_fuel_mono {asize fuel : Nat} {st : AllocState}
    {r : Option Nat × AllocState} (h : mallocLoop asize fuel st = some r) :
    ∀ {fuel2 : Nat}, fuel ≤ fuel2 → mallocLoop asize fuel2 st = some r := by
  intro fuel2 hle
  induction fuel2 with
  | zero =>
    have : fuel = 0 := by omega
    subst this
    exact h
  | succ n ih =>
    by_cases hf : fuel = n + 1
    · subst hf
      exact h
    · exact mallocLoop_succ n st r (ih (by omega))

theorem hdrOf_payload {h : Nat} (hh : h + HEADER_SIZE < M) :
    hdrOf (get_payload_ptr h) = h := by
  rw [hdrOf, get_payload_ptr, Nat.mod_eq_of_lt hh]
  have hM : 0 < M := by rw [M_val]; omega
  have h8 : HEADER_SIZE + (M - HEADER_SIZE) = M := by
    simp [M_val, HEADER_SIZE]
  rw [Nat.add_assoc, h8, Nat.add_mod_right]
  exact Nat.mod_eq_of_lt (by simp only [HEADER_SIZE] at hh; omega)

theorem hdrOf_lt {p : Nat} : hdrOf p < M := by
  rw [hdrOf]
  exact Nat.mod_lt _ (by rw [M_val]; omega)

theorem hdrOf_inj {p q : Nat} (hp : p < M) (hq : q < M) (h : hdrOf p = hdrOf q) :
    p = q := by
  rw [hdrOf, hdrOf] at h
  have h8 : HEADER_SIZE < M := by rw [M_val]; norm_num [HEADER_SIZE]
  have hM : 0 < M := by rw [M_val]; omega
  rcases Nat.lt_or_ge p HEADER_SIZE with h1 | h1 <;>
    rcases Nat.lt_or_ge q HEADER_SIZE with h2 | h2
  · rw [Nat.mod_eq_of_lt (by omega), Nat.mod_eq_of_lt (by omega)] at h
    omega
  · rw [Nat.mod_eq_of_lt (by omega)] at h
    rw [show q + (M - HEADER_SIZE) = (q - HEADER_SIZE) + M by omega,
      Nat.add_mod_right, Nat.mod_eq_of_lt (by omega)] at h
    omega
  · rw [show p + (M - HEADER_SIZE) = (p - HEADER_SIZE) + M by omega,
      Nat.add_mod_right, Nat.mod_eq_of_lt (by omega)] at h
    rw [Nat.mod_eq_of_lt (by omega)] at h
    omega
  · rw [show p + (M - HEADER_SIZE) = (p - HEADER_SIZE) + M by omega,
      Nat.add_mod_right, Nat.mod_eq_of_lt (by omega)] at h
    rw [show q + (M - HEADER_SIZE) = (q - HEADER_SIZE) + M by omega,
      Nat.add_mod_right, Nat.mod_eq_of_lt (by omega)] at h
    omega

/-- In the only situation where the loop cannot finish with one
extension (the rounded size is M - 16, so size + ALIGNMENT wraps to 0,
the grant start is already correctly offset, and the new block is
recorded with size 0), m_malloc does not return at all. -/
theorem malloc_wrap_none {st : AllocState} {s : Nat} (hs : s ≠ 0)
    (hff : firstFit st st.freeList (GET_ALIGNED_SIZE s) = none)
    (hok : st.brk + (GET_ALIGNED_SIZE s + ALIGNMENT) % M ≤ st.sbrkLimit)
    (hfits : ¬ GET_ALIGNED_SIZE s ≤ newBlockSize st (GET_ALIGNED_SIZE s)) :
    m_malloc st s = none := by
  have hal : ¬ st.brk % ALIGNMENT ≠ HEADER_OFFSET := by
    intro hc
    exact hfits (le_of_eq (by rw [newBlockSize, if_pos hc]))
  have hasize : GET_ALIGNED_SIZE s = M - 16 := by
    have h16 := GET_ALIGNED_SIZE_mod s
    have hlt := GET_ALIGNED_SIZE_lt s
    by_contra hne
    apply hfits
    rw [newBlockSize, if_neg hal]
    have hsm : GET_ALIGNED_SIZE s + ALIGNMENT < M := by
      rw [M_val] at hlt hne ⊢
      simp only [ALIGNMENT]
      omega
    rw [Nat.mod_eq_of_lt hsm]
    simp only [ALIGNMENT]
    omega
  have hincr : (M - 16 + ALIGNMENT) % M = 0 := by
    have : M - 16 + ALIGNMENT = M := by rw [M_val]; norm_num [ALIGNMENT]
    rw [this, Nat.mod_self]
  rw [m_malloc, if_neg hs, hasize]
  apply mallocLoop_wrap_spins 2 st
  · simp only [ALIGNMENT, HEADER_OFFSET] at hal
    omega
  · rw [hasize, hincr] at hok
    omega
  · intro x hx
    have := firstFit_none_forall st _ _ hff x hx
    rw [hasize] at this
    exact this

/-- If m_malloc returns null, the state is untouched. -/
theorem malloc_none_state {st st1 : AllocState} {s : Nat}
    (h : m_malloc st s = some (none, st1)) : st1 = st := by
  by_cases hs : s = 0
  · rw [m_malloc, if_pos hs] at h
    injection h with h1
    injection h1 with h2 h3
    exact h3.symm
  · cases hff : firstFit st st.freeList (GET_ALIGNED_SIZE s) with
    | some p =>
      obtain ⟨blk, rest⟩ := p
      obtain ⟨stF, hrun, _⟩ := malloc_fit hs hff
      rw [hrun] at h
      simp at h
    | none =>
      by_cases hok : st.brk + (GET_ALIGNED_SIZE s + ALIGNMENT) % M ≤ st.sbrkLimit
      · by_cases hfits : GET_ALIGNED_SIZE s ≤ newBlockSize st (GET_ALIGNED_SIZE s)
        · obtain ⟨stF, hrun, _⟩ := malloc_ext_ok hs hff hok hfits
          rw [hrun] at h
          simp at h
        · rw [malloc_wrap_none hs hff hok hfits] at h
          exact absurd h (by simp)
      · rw [malloc_extfail hs hff hok] at h
        injection h with h1
        injection h1 with h2 h3
        exact h3.symm

/-! ### The heap invariant -/

theorem get_payload_ptr_lt (h : Nat) : get_payload_ptr h < M := by
  rw [get_payload_ptr]
  exact Nat.mod_lt _ (by rw [M_val]; omega)

/-- Well-formedness of one block header: correctly offset address,
in-range, data word of the form 16k + flag, and the block lies below the
current break unless it is the single maximal-size block that a wrapped
extension can produce above it. -/
def BlockOK (st : AllocState) (h flag : Nat) : Prop :=
  h % 16 = 8 ∧ h + HEADER_SIZE < M ∧ st.hdr h < M ∧ st.hdr h % 16 = flag ∧
    (h < st.brk ∨ get_size st h = M - 16)

/-- Heap invariant relating the allocator state to the list L of live
(handed out, not yet released) payload pointers: free-listed blocks are
well formed with the flag clear, live blocks are well formed with the
flag set and are not reachable from the free list, the free list has no
duplicates, and the growable address range lies within the address
space. -/
def Inv (st : AllocState) (L : List Nat) : Prop :=
  (∀ h ∈ st.freeList, BlockOK st h 0) ∧
  (∀ p ∈ L, p < M ∧ BlockOK st (hdrOf p) 1 ∧ hdrOf p ∉ st.freeList) ∧
  st.freeList.Nodup ∧ st.sbrkLimit + 24 ≤ M

theorem get_size_congr {st st' : AllocState} {h : Nat}
    (he : st'.hdr h = st.hdr h) : get_size st' h = get_size st h := by
  rw [get_size, get_size, he]

theorem BlockOK_mono {st st' : AllocState} {h flag : Nat} (hb : BlockOK st h flag)
    (hhdr : st'.hdr h = st.hdr h) (hbrk : st.brk ≤ st'.brk) : BlockOK st' h flag := by
  obtain ⟨h1, h2, h3, h4, h5⟩ := hb
  refine ⟨h1, h2, by rw [hhdr]; exact h3, by rw [hhdr]; exact h4, ?_⟩
  rcases h5 with h5 | h5
  · left
    omega
  · right
    rw [get_size_congr hhdr]
    exact h5

/-- m_malloc preserves the heap invariant; a returned payload is aligned,
its block is live, and the block size covers the rounded request. -/
theorem malloc_inv_some {st st' : AllocState} {L : List Nat} {s p : Nat}
    (hinv : Inv st L) (h : m_malloc st s = some (some p, st')) :
    Inv st' (p :: L) ∧ p % 16 = 0 ∧ GET_ALIGNED_SIZE s ≤ get_size st' (hdrOf p) := by
  obtain ⟨hfl, hlive, hnodup, hlim⟩ := hinv
  have hs : s ≠ 0 := by
    intro hc
    rw [m_malloc, if_pos hc] at h
    simp at h
  cases hff : firstFit st st.freeList (GET_ALIGNED_SIZE s) with
  | some q =>
    obtain ⟨blk, rest⟩ := q
    obtain ⟨stF, hrun, hFfl, hFbrk, hFlim, hFmem, hFhdr, hFother⟩ := malloc_fit hs hff
    rw [hrun] at h
    injection h with h1
    injection h1 with h2 h3
    injection h2 with h4
    subst h3
    subst h4
    have hblkmem : blk ∈ st.freeList := firstFit_mem hff
    obtain ⟨hsz, l1, l2, hfleq, hresteq⟩ := firstFit_some hff
    obtain ⟨hb1, hb2, hb3, hb4, hb5⟩ := hfl blk hblkmem
    have hhdrOfp : hdrOf (get_payload_ptr blk) = blk := hdrOf_payload hb2
    have hnotin : blk ∉ rest := by
      rw [hfleq, List.nodup_append, List.nodup_cons] at hnodup
      obtain ⟨hn1, ⟨hn2a, hn2b⟩, hdisj⟩ := hnodup
      rw [hresteq]
      intro hc
      rcases List.mem_append.mp hc with hc1 | hc1
      · exact hdisj hc1 (List.mem_cons_self _ _)
      · exact hn2a hc1
    have hFhdr2 : stF.hdr blk = st.hdr blk + 1 := by
      rw [hFhdr]
      exact or_one_of_sixteen_dvd hb4
    have hFsize : get_size stF blk = st.hdr blk :=
      get_size_eq_of_flagged hFhdr2 hb4 hb3
    have hsize_st : get_size st blk = st.hdr blk := get_size_eq_of rfl hb4 hb3
    refine ⟨⟨?_, ?_, ?_, ?_⟩, get_payload_ptr_mod hb1, ?_⟩
    · intro x hx
      rw [hFfl] at hx
      have hxne : x ≠ blk := fun hc => hnotin (hc ▸ hx)
      exact BlockOK_mono (hfl x (firstFit_rest_subset hff x hx))
        (hFother x hxne) (le_of_eq hFbrk.symm)
    · intro q hq
      rcases List.mem_cons.mp hq with rfl | hq2
      · refine ⟨get_payload_ptr_lt blk, ?_, ?_⟩
        · rw [hhdrOfp]
          refine ⟨hb1, hb2, ?_, ?_, ?_⟩
          · rw [hFhdr2]
            rw [M_val] at hb3 ⊢
            omega
          · rw [hFhdr2]
            omega
          · rcases hb5 with h5 | h5
            · left
              rw [hFbrk]
              exact h5
            · right
              rw [hFsize, ← hsize_st]
              exact h5
        · rw [hhdrOfp, hFfl]
          exact hnotin
      · obtain ⟨hqM, hbq, hqnot⟩ := hlive q hq2
        have hqne : hdrOf q ≠ blk := fun hc => hqnot (hc ▸ hblkmem)
        refine ⟨hqM, BlockOK_mono hbq (hFother _ hqne) (le_of_eq hFbrk.symm), ?_⟩
        rw [hFfl]
        intro hc
        exact hqnot (firstFit_rest_subset hff _ hc)
    · rw [hFfl, hresteq]
      rw [hfleq, List.nodup_append, List.nodup_cons] at hnodup
      obtain ⟨hn1, ⟨hn2a, hn2b⟩, hdisj⟩ := hnodup
      rw [List.nodup_append]
      exact ⟨hn1, hn2b, fun a ha hb => hdisj ha (List.mem_cons_of_mem _ hb)⟩
    · rw [hFlim]
      exact hlim
    · rw [hhdrOfp, hFsize, ← hsize_st]
      exact hsz
  | none =>
    by_cases hok : st.brk + (GET_ALIGNED_SIZE s + ALIGNMENT) % M ≤ st.sbrkLimit
    · by_cases hfits : GET_ALIGNED_SIZE s ≤ newBlockSize st (GET_ALIGNED_SIZE s)
      · obtain ⟨stF, hrun, hFfl, hFbrk, hFlim, hFmem, hFhdr, hFother⟩ :=
          malloc_ext_ok hs hff hok hfits
        rw [hrun] at h
        injection h with h1
        injection h1 with h2 h3
        injection h2 with h4
        subst h3
        subst h4
        have hsmall := firstFit_none_forall st _ _ hff
        have hasize_le : GET_ALIGNED_SIZE s ≤ M - 16 := by
          have ha1 := GET_ALIGNED_SIZE_lt s
          have ha2 := GET_ALIGNED_SIZE_mod s
          rw [M_val] at ha1 ⊢
          omega
        have hbelow : ∀ x ∈ st.freeList, x < st.brk := by
          intro x hx
          rcases (hfl x hx).2.2.2.2 with h5 | h5
          · exact h5
          · exfalso
            have := hsmall x hx
            omega
        have hbrk_le : st.brk ≤ st.sbrkLimit := le_trans (Nat.le_add_right _ _) hok
        have hbrk23 : st.brk + 23 < M := by
          rw [M_val] at hlim ⊢
          omega
        have hnb_ge : st.brk ≤ newBlockAddr st := by
          rw [newBlockAddr]
          by_cases hal : st.brk % ALIGNMENT ≠ HEADER_OFFSET
          · rw [if_pos hal]
            exact (GET_ALIGNED_HEADER_nowrap hbrk23).1
          · rw [if_neg hal]
        have hnb_le : newBlockAddr st ≤ st.brk + 15 := by
          rw [newBlockAddr]
          by_cases hal : st.brk % ALIGNMENT ≠ HEADER_OFFSET
          · rw [if_pos hal]
            exact (GET_ALIGNED_HEADER_nowrap hbrk23).2
          · rw [if_neg hal]
            omega
        have hnbM : newBlockAddr st + HEADER_SIZE < M := by
          simp only [HEADER_SIZE]
          rw [M_val] at hbrk23 ⊢
          omega
        have hnb_notmem : newBlockAddr st ∉ st.freeList := by
          intro hc
          have := hbelow _ hc
          omega
        have hnb16 : newBlockAddr st % 16 = 8 := newBlockAddr_mod st
        have hv16 := newBlockSize_mod st s
        have hvlt := newBlockSize_lt st s
        have hhdrOfp : hdrOf (get_payload_ptr (newBlockAddr st)) = newBlockAddr st :=
          hdrOf_payload hnbM
        have hFsize : get_size stF (newBlockAddr st) = newBlockSize st (GET_ALIGNED_SIZE s) :=
          get_size_eq_of_flagged hFhdr hv16 hvlt
        have hbrk_mono : st.brk ≤ stF.brk := by
          rw [hFbrk]
          omega
        have hdisj2 : newBlockAddr st < stF.brk ∨
            get_size stF (newBlockAddr st) = M - 16 := by
          by_cases hwrap : GET_ALIGNED_SIZE s = M - 16
          · right
            rw [hFsize]
            rw [M_val] at hvlt hwrap ⊢
            omega
          · left
            rw [hFbrk]
            have hincr_eq : (GET_ALIGNED_SIZE s + ALIGNMENT) % M =
                GET_ALIGNED_SIZE s + ALIGNMENT := by
              apply Nat.mod_eq_of_lt
              rw [M_val] at hasize_le hwrap ⊢
              simp only [ALIGNMENT]
              omega
            have h5 : newBlockAddr st < st.brk + 16 := by omega
            have h6 : 16 ≤ (GET_ALIGNED_SIZE s + ALIGNMENT) % M := by
              rw [hincr_eq]
              simp only [ALIGNMENT]
              omega
            omega
        have hFhdr_lt : stF.hdr (newBlockAddr st) < M := by
          rw [hFhdr]
          rw [M_val] at hvlt ⊢
          omega
        have hFhdr_mod : stF.hdr (newBlockAddr st) % 16 = 1 := by
          rw [hFhdr]
          omega
        refine ⟨⟨?_, ?_, ?_, ?_⟩, get_payload_ptr_mod hnb16, ?_⟩
        · intro x hx
          rw [hFfl] at hx
          have hxne : x ≠ newBlockAddr st := by
            intro hc
            exact hnb_notmem (hc ▸ hx)
          exact BlockOK_mono (hfl x hx) (hFother x hxne) hbrk_mono
        · intro q hq
          rcases List.mem_cons.mp hq with rfl | hq2
          · refine ⟨get_payload_ptr_lt _, ?_, ?_⟩
            · rw [hhdrOfp]
              exact ⟨hnb16, hnbM, hFhdr_lt, hFhdr_mod, hdisj2⟩
            · rw [hhdrOfp, hFfl]
              exact hnb_notmem
          · obtain ⟨hqM, hbq, hqnot⟩ := hlive q hq2
            by_cases hqne : hdrOf q = newBlockAddr st
            · refine ⟨hqM, ?_, ?_⟩
              · rw [hqne]
                exact ⟨hnb16, hnbM, hFhdr_lt, hFhdr_mod, hdisj2⟩
              · rw [hqne, hFfl]
                exact hnb_notmem
            · refine ⟨hqM, BlockOK_mono hbq (hFother _ hqne) hbrk_mono, ?_⟩
              rw [hFfl]
              exact hqnot
        · rw [hFfl]
          exact hnodup
        · rw [hFlim]
          exact hlim
        · rw [hhdrOfp, hFsize]
          exact hfits
      · rw [malloc_wrap_none hs hff hok hfits] at h
        simp at h
    · rw [malloc_extfail hs hff hok] at h
      simp at h

/-- m_malloc returning null leaves the invariant (and the whole state)
unchanged. -/
theorem malloc_inv_none {st st' : AllocState} {L : List Nat} {s : Nat}
    (hinv : Inv st L) (h : m_malloc st s = some (none, st')) : Inv st' L := by
  rw [malloc_none_state h]
  exact hinv

/-- The invariant does not depend on payload memory contents. -/
theorem Inv_mem_update {st : AllocState} {L : List Nat} (hinv : Inv st L)
    (f : Nat → Nat) : Inv { st with mem := f } L := by
  obtain ⟨hfl, hlive, hnodup, hlim⟩ := hinv
  refine ⟨?_, ?_, hnodup, hlim⟩
  · intro x hx
    exact BlockOK_mono (hfl x hx) rfl (le_refl _)
  · intro q hq
    obtain ⟨hqM, hbq, hqnot⟩ := hlive q hq
    exact ⟨hqM, BlockOK_mono hbq rfl (le_refl _), hqnot⟩

theorem Inv_memset {st : AllocState} {L : List Nat} (hinv : Inv st L)
    (p v n : Nat) : Inv (memset st p v n) L := Inv_mem_update hinv _

theorem Inv_memcpy {st : AllocState} {L : List Nat} (hinv : Inv st L)
    (d s0 n : Nat) : Inv (memcpy st d s0 n) L := Inv_mem_update hinv _

/-- Releasing a live payload preserves the heap invariant; the block
returns to the head of the free list with its flag cleared. -/
theorem free_inv {st : AllocState} {L : List Nat} {p : Nat}
    (hinv : Inv st L) (hp : p ∈ L) :
    Inv (m_free st p) (L.filter (· != p)) := by
  obtain ⟨hfl, hlive, hnodup, hlim⟩ := hinv
  obtain ⟨hpM, ⟨h1, h2, h3, h4, h5⟩, hnot⟩ := hlive p hp
  have hclear : (m_free st p).hdr (hdrOf p) = st.hdr (hdrOf p) - 1 := by
    show (internal_free st (hdrOf p)).hdr (hdrOf p) = _
    rw [internal_free_hdr_self]
    conv_lhs => rw [show st.hdr (hdrOf p) = (st.hdr (hdrOf p) - 1) + 1 by omega]
    rw [and_flag_set_clear_eq (by omega) (by omega)]
  have hflist : (m_free st p).freeList = hdrOf p :: st.freeList := rfl
  have hother : ∀ a, a ≠ hdrOf p → (m_free st p).hdr a = st.hdr a := by
    intro a ha
    show (internal_free st (hdrOf p)).hdr a = _
    simp only [internal_free_hdr, if_neg ha]
  have hbrk : (m_free st p).brk = st.brk := rfl
  have hlim2 : (m_free st p).sbrkLimit = st.sbrkLimit := rfl
  have hsz : get_size (m_free st p) (hdrOf p) = st.hdr (hdrOf p) - 1 :=
    get_size_eq_of hclear (by omega) (by omega)
  have hsz_old : get_size st (hdrOf p) = st.hdr (hdrOf p) - 1 :=
    get_size_eq_of_flagged (d := st.hdr (hdrOf p) - 1) (by omega) (by omega) (by omega)
  refine ⟨?_, ?_, ?_, ?_⟩
  · intro x hx
    rw [hflist] at hx
    rcases List.mem_cons.mp hx with hxe | hx2
    · rw [hxe]
      refine ⟨?_, ?_, ?_, ?_, ?_⟩
      · exact h1
      · exact h2
      · rw [hclear]
        omega
      · rw [hclear]
        omega
      · rcases h5 with h5 | h5
        · left
          rw [hbrk]
          exact h5
        · right
          rw [hsz]
          rw [hsz_old] at h5
          exact h5
    · have hxne : x ≠ hdrOf p := by
        intro hc
        exact hnot (hc ▸ hx2)
      exact BlockOK_mono (hfl x hx2) (hother x hxne) (le_of_eq hbrk.symm)
  · intro q hq
    rw [List.mem_filter] at hq
    obtain ⟨hqL, hqne'⟩ := hq
    have hqnep : q ≠ p := by simpa using hqne'
    obtain ⟨hqM, hbq, hqnot⟩ := hlive q hqL
    have hne : hdrOf q ≠ hdrOf p := fun hc => hqnep (hdrOf_inj hqM hpM hc)
    refine ⟨hqM, BlockOK_mono hbq (hother _ hne) (le_of_eq hbrk.symm), ?_⟩
    rw [hflist]
    intro hc
    rcases List.mem_cons.mp hc with hc1 | hc1
    · exact hne hc1
    · exact hqnot hc1
  · rw [hflist]
    exact List.nodup_cons.mpr ⟨hnot, hnodup⟩
  · rw [hlim2]
    exact hlim

/-- m_calloc success preserves the invariant. -/
theorem calloc_inv_some {st st' : AllocState} {L : List Nat} {n s p : Nat}
    (hinv : Inv st L) (h : m_calloc st n s = some (some p, st')) :
    Inv st' (p :: L) ∧ p % 16 = 0 := by
  simp only [m_calloc] at h
  by_cases hg : n ≠ 0 ∧ n * s % M / n ≠ s
  · rw [if_pos hg] at h
    simp at h
  · rw [if_neg hg] at h
    cases hm : m_malloc st (n * s % M) with
    | none => rw [hm] at h; simp at h
    | some r =>
      obtain ⟨res, st1⟩ := r
      rw [hm] at h
      cases res with
      | none => simp at h
      | some q =>
        injection h with h1
        injection h1 with h2 h3
        injection h2 with h4
        subst h4
        subst h3
        obtain ⟨hinv1, hp16, _⟩ := malloc_inv_some hinv hm
        exact ⟨Inv_memset hinv1 _ _ _, hp16⟩

/-- m_calloc failure preserves the invariant. -/
theorem calloc_inv_none {st st' : AllocState} {L : List Nat} {n s : Nat}
    (hinv : Inv st L) (h : m_calloc st n s = some (none, st')) : Inv st' L := by
  simp only [m_calloc] at h
  by_cases hg : n ≠ 0 ∧ n * s % M / n ≠ s
  · rw [if_pos hg] at h
    injection h with h1
    injection h1 with h2 h3
    rw [← h3]
    exact hinv
  · rw [if_neg hg] at h
    cases hm : m_malloc st (n * s % M) with
    | none => rw [hm] at h; simp at h
    | some r =>
      obtain ⟨res, st1⟩ := r
      rw [hm] at h
      cases res with
      | some q => simp at h
      | none =>
        injection h with h1
        injection h1 with h2 h3
        rw [← h3]
        exact malloc_inv_none hinv hm

/-- m_realloc success on a live pointer preserves the invariant: the new
payload becomes live and the old one is released. -/
theorem realloc_inv_some_live {st st' : AllocState} {L : List Nat} {ptr s p : Nat}
    (hinv : Inv st L) (hp : ptr ∈ L) (hptr : ptr ≠ 0)
    (h : m_realloc st ptr s = some (some p, st')) :
    Inv st' ((p :: L).filter (· != ptr)) := by
  simp only [m_realloc, if_neg hptr] at h
  cases hm : m_malloc st s with
  | none => rw [hm] at h; simp at h
  | some r =>
    obtain ⟨res, st1⟩ := r
    rw [hm] at h
    cases res with
    | none => simp at h
    | some np =>
      injection h with h1
      injection h1 with h2 h3
      injection h2 with h4
      subst h4
      subst h3
      have hinv1 : Inv st1 (np :: L) := (malloc_inv_some hinv hm).1
      exact free_inv (Inv_memcpy hinv1 _ _ _) (List.mem_cons_of_mem _ hp)

/-- m_realloc failure preserves the invariant and the live set. -/
theorem realloc_inv_none {st st' : AllocState} {L : List Nat} {ptr s : Nat}
    (hinv : Inv st L) (h : m_realloc st ptr s = some (none, st')) : Inv st' L := by
  by_cases hptr : ptr = 0
  · rw [m_realloc, if_pos hptr] at h
    exact malloc_inv_none hinv h
  · simp only [m_realloc, if_neg hptr] at h
    cases hm : m_malloc st s with
    | none => rw [hm] at h; simp at h
    | some r =>
      obtain ⟨res, st1⟩ := r
      rw [hm] at h
      cases res with
      | some np => simp at h
      | none =>
        injection h with h1
        injection h1 with h2 h3
        rw [← h3]
        exact malloc_inv_none hinv hm

/-- States reachable from a fresh (lazily initialized) heap through the
four entry points, called under their stated preconditions: released
and reallocated pointers must be live payloads or null (the interface
table of the spec admits release(null) and reallocate(null, s)).  The
second component tracks the live payload pointers.  A call that does
not return (see malloc_wrap_none) yields no new state. -/
inductive Reach : AllocState → List Nat → Prop where
  | init (hdr0 mem0 : Nat → Nat) (brk lim : Nat) (hlim : lim + 24 ≤ M) :
      Reach { freeList := [], hdr := hdr0, mem := mem0, brk := brk, sbrkLimit := lim } []
  | malloc_ok {st L size p st'} : Reach st L →
      m_malloc st size = some (some p, st') → Reach st' (p :: L)
  | malloc_null {st L size st'} : Reach st L →
      m_malloc st size = some (none, st') → Reach st' L
  | calloc_ok {st L n s p st'} : Reach st L →
      m_calloc st n s = some (some p, st') → Reach st' (p :: L)
  | calloc_null {st L n s st'} : Reach st L →
      m_calloc st n s = some (none, st') → Reach st' L
  | realloc_null_ok {st L s p st'} : Reach st L →
      m_realloc st 0 s = some (some p, st') → Reach st' (p :: L)
  | realloc_ok {st L ptr s p st'} : Reach st L → ptr ∈ L → ptr ≠ 0 →
      m_realloc st ptr s = some (some p, st') →
      Reach st' ((p :: L).filter (· != ptr))
  | realloc_fail {st L ptr s st'} : Reach st L → (ptr = 0 ∨ ptr ∈ L) →
      m_realloc st ptr s = some (none, st') → Reach st' L
  | release {st L ptr} : Reach st L → ptr ∈ L →
      Reach (m_free st ptr) (L.filter (· != ptr))
  | release_null {st L} : Reach st L → Reach (m_free st 0) L

/-- The restriction of Reach to call sequences that never pass null to
release: released pointers are live payloads (reallocate may still take
null, which performs no release).  Under this restriction the heap
invariant is preserved; the release_null step of Reach breaks it, see
claim_C3_bug. -/
inductive ReachLive : AllocState → List Nat → Prop where
  | init (hdr0 mem0 : Nat → Nat) (brk lim : Nat) (hlim : lim + 24 ≤ M) :
      ReachLive { freeList := [], hdr := hdr0, mem := mem0, brk := brk, sbrkLimit := lim } []
  | malloc_ok {st L size p st'} : ReachLive st L →
      m_malloc st size = some (some p, st') → ReachLive st' (p :: L)
  | malloc_null {st L size st'} : ReachLive st L →
      m_malloc st size = some (none, st') → ReachLive st' L
  | calloc_ok {st L n s p st'} : ReachLive st L →
      m_calloc st n s = some (some p, st') → ReachLive st' (p :: L)
  | calloc_null {st L n s st'} : ReachLive st L →
      m_calloc st n s = some (none, st') → ReachLive st' L
  | realloc_null_ok {st L s p st'} : ReachLive st L →
      m_realloc st 0 s = some (some p, st') → ReachLive st' (p :: L)
  | realloc_ok {st L ptr s p st'} : ReachLive st L → ptr ∈ L → ptr ≠ 0 →
      m_realloc st ptr s = some (some p, st') →
      ReachLive st' ((p :: L).filter (· != ptr))
  | realloc_fail {st L ptr s st'} : ReachLive st L → (ptr = 0 ∨ ptr ∈ L) →
      m_realloc st ptr s = some (none, st') → ReachLive st' L
  | release {st L ptr} : ReachLive st L → ptr ∈ L →
      ReachLive (m_free st ptr) (L.filter (· != ptr))

/-- Every state reachable without null releases satisfies the heap
invariant. -/
theorem reach_inv {st : AllocState} {L : List Nat} (h : ReachLive st L) : Inv st L := by
  induction h with
  | init hdr0 mem0 brk lim hlim =>
    exact ⟨by simp, by simp, List.nodup_nil, hlim⟩
  | malloc_ok _ hm ih => exact (malloc_inv_some ih hm).1
  | malloc_null _ hm ih => exact malloc_inv_none ih hm
  | calloc_ok _ hm ih => exact (calloc_inv_some ih hm).1
  | calloc_null _ hm ih => exact calloc_inv_none ih hm
  | realloc_null_ok _ hm ih =>
    rw [m_realloc, if_pos rfl] at hm
    exact (malloc_inv_some ih hm).1
  | realloc_ok _ hptr hptr0 hm ih => exact realloc_inv_some_live ih hptr hptr0 hm
  | realloc_fail _ _ hm ih => exact realloc_inv_none ih hm
  | release _ hptr ih => exact free_inv ih hptr

/-- In every state reachable without null releases, no block whose
allocation flag is set is reachable by following the link fields from
the free-list sentinel head. -/
theorem reachLive_no_flagged {st : AllocState} {L : List Nat} (h : ReachLive st L) :
    ∀ b ∈ st.freeList, is_alloc st b = 0 := by
  intro b hb
  have h16 : st.hdr b % 16 = 0 := (((reach_inv h).1) b hb).2.2.2.1
  rw [is_alloc, ALLOC_FLAG, Nat.and_one_is_mod]
  omega

/-! ### Concrete states used to exercise the theorems -/

/-- A fresh heap: empty free list, break at 8 (already at HEADER_OFFSET
modulo ALIGNMENT), room to grow. -/
def W0 : AllocState :=
  { freeList := [], hdr := fun _ => 0, mem := fun _ => 0, brk := 8, sbrkLimit := 1000 }

/-- A heap whose address space cannot grow at all. -/
def WFail : AllocState :=
  { freeList := [], hdr := fun _ => 0, mem := fun _ => 0, brk := 8, sbrkLimit := 0 }

theorem W0_inv : Inv W0 [] := by
  refine ⟨?_, ?_, ?_, ?_⟩
  · intro h hh
    simp [W0] at hh
  · intro q hq
    simp at hq
  · simp [W0]
  · show (1000 : Nat) + 24 ≤ M
    rw [M_val]
    omega

/-- The state after m_malloc W0 16 (which succeeds returning 16). -/
def W0m : AllocState := ((m_malloc W0 16).getD (none, W0)).2

theorem payload_hdrOf {p : Nat} (hp : p < M) : get_payload_ptr (hdrOf p) = p := by
  rw [get_payload_ptr, hdrOf, Nat.mod_add_mod]
  rw [show p + (M - HEADER_SIZE) + HEADER_SIZE = p + M by
    have : HEADER_SIZE ≤ M := by rw [M_val]; norm_num [HEADER_SIZE]
    omega]
  rw [Nat.add_mod_right]
  exact Nat.mod_eq_of_lt hp

/-! ### The claims -/

/-- Claim C1: for every size for which allocate succeeds in a well-formed
heap, the returned payload pointer (the address of the link field of the
block handed to the client) is a multiple of the platform alignment
_Alignof(max_align_t).  The proof covers both blocks recycled from the
free list and blocks freshly created by address-space extension. -/
theorem claim_C1 {st st' : AllocState} {L : List Nat} {s p : Nat}
    (hinv : Inv st L) (h : m_malloc st s = some (some p, st')) :
    p % ALIGNMENT = 0 := by
  have h16 := (malloc_inv_some hinv h).2.1
  simpa [ALIGNMENT] using h16

/-- Witness for C1: a concrete allocation in the fresh heap W0 returns
payload address 16, a multiple of 16. -/
theorem claim_C1_witness : (16 : Nat) % ALIGNMENT = 0 :=
  @claim_C1 W0 W0m [] 16 16 W0_inv
    (show m_malloc W0 16 = some (some 16, W0m) from rfl)

/-- Claim C2 (amended): provided the rounded size is not exactly M - 16
(equivalently, required + alignment does not wrap to 0 in size_t, which
happens exactly for SIZE_MAX - 38 <= size <= SIZE_MAX - 23), a first-fit
miss leads to one extension request of required + alignment bytes; on
failure null is returned with the state unchanged, and on success the
granted region becomes one block (the full grant of size
required + alignment at an already correctly offset start, otherwise a
block of exactly the required size at the next correctly offset address)
which is consumed on the very next search pass, so a single extension
suffices and the loop gives the same answer at every fuel bound of at
least 2. -/
theorem claim_C2 {st : AllocState} {s : Nat} (hs : 0 < s)
    (hnw : GET_ALIGNED_SIZE s ≠ M - 16)
    (hff : firstFit st st.freeList (GET_ALIGNED_SIZE s) = none) :
    (st.sbrkLimit < st.brk + (GET_ALIGNED_SIZE s + ALIGNMENT) →
      m_malloc st s = some (none, st)) ∧
    (st.brk + (GET_ALIGNED_SIZE s + ALIGNMENT) ≤ st.sbrkLimit →
      ∃ st', m_malloc st s = some (some (get_payload_ptr (newBlockAddr st)), st') ∧
        st'.brk = st.brk + (GET_ALIGNED_SIZE s + ALIGNMENT) ∧
        st'.freeList = st.freeList ∧
        st'.hdr (newBlockAddr st) =
          (if st.brk % ALIGNMENT ≠ HEADER_OFFSET then GET_ALIGNED_SIZE s
            else GET_ALIGNED_SIZE s + ALIGNMENT) + 1 ∧
        (∀ fuel, 2 ≤ fuel →
          mallocLoop (GET_ALIGNED_SIZE s) fuel st = m_malloc st s)) := by
  have hs0 : s ≠ 0 := by omega
  have hincr : (GET_ALIGNED_SIZE s + ALIGNMENT) % M = GET_ALIGNED_SIZE s + ALIGNMENT := by
    apply Nat.mod_eq_of_lt
    have h1 := GET_ALIGNED_SIZE_lt s
    have h2 := GET_ALIGNED_SIZE_mod s
    rw [M_val] at h1 hnw ⊢
    simp only [ALIGNMENT]
    omega
  constructor
  · intro hfail
    apply malloc_extfail hs0 hff
    rw [hincr]
    omega
  · intro hok
    have hok2 : st.brk + (GET_ALIGNED_SIZE s + ALIGNMENT) % M ≤ st.sbrkLimit := by
      rw [hincr]
      exact hok
    have hfits : GET_ALIGNED_SIZE s ≤ newBlockSize st (GET_ALIGNED_SIZE s) := by
      rw [newBlockSize]
      by_cases hal : st.brk % ALIGNMENT ≠ HEADER_OFFSET
      · rw [if_pos hal]
      · rw [if_neg hal, hincr]
        omega
    obtain ⟨stF, hrun, hFfl, hFbrk, hFlim, hFmem, hFhdr, hFother⟩ :=
      malloc_ext_ok hs0 hff hok2 hfits
    refine ⟨stF, hrun, ?_, hFfl, ?_, ?_⟩
    · rw [hFbrk, hincr]
    · rw [hFhdr, newBlockSize, hincr]
    · intro fuel hfuel
      have hdef : m_malloc st s = mallocLoop (GET_ALIGNED_SIZE s) 2 st := by
        rw [m_malloc, if_neg hs0]
      rw [hdef] at hrun ⊢
      rw [hrun]
      exact mallocLoop_fuel_mono hrun hfuel

/-- Counterexample to C2 as frozen: at size SIZE_MAX - 23 in the fresh
heap W0 the required size rounds to M - 16, the sbrk request of
required + alignment bytes wraps to 0 and is granted (the extension
request does not fail), yet m_malloc never returns: the carved block is
recorded with size 0 and can never satisfy the search, contradicting
both the claimed fit of the new block and termination with null exactly
on extension failure. -/
theorem claim_C2_counterexample :
    m_malloc W0 (M - 24) = none ∧
      W0.brk + (GET_ALIGNED_SIZE (M - 24) + ALIGNMENT) % M ≤ W0.sbrkLimit := by
  constructor
  · rfl
  · decide

/-- At the counterexample input of C2 the loop spins at every fuel
bound, not just at the bound 2 baked into m_malloc: the C loop truly
never terminates there. -/
theorem malloc_spins_forever_at_wrap :
    ∀ fuel, mallocLoop (GET_ALIGNED_SIZE (M - 24)) fuel W0 = none := by
  intro fuel
  have h : GET_ALIGNED_SIZE (M - 24) = M - 16 := by decide
  rw [h]
  apply mallocLoop_wrap_spins fuel W0
  · decide
  · decide
  · intro x hx
    simp [W0] at hx

/-- Witness for C2: in the heap WFail that cannot grow, a first-fit miss
with a failing extension returns null and leaves the state untouched. -/
theorem claim_C2_witness : m_malloc WFail 16 = some (none, WFail) :=
  (@claim_C2 WFail 16 (by decide) (by decide) rfl).1 (by decide)

/-- A heap holding one free block of total size 16 at header address 8,
with the break beyond it at 24. -/
def WC4 : AllocState :=
  { freeList := [8], hdr := fun a => if a = 8 then 16 else 0,
    mem := fun _ => 0, brk := 24, sbrkLimit := 1000 }

theorem WC4_inv : Inv WC4 [] := by
  refine ⟨?_, ?_, ?_, ?_⟩
  · intro h hh
    simp [WC4] at hh
    rw [hh]
    refine ⟨?_, ?_, ?_, ?_, ?_⟩
    · decide
    · decide
    · decide
    · decide
    · exact Or.inl (by decide)
  · intro q hq
    simp at hq
  · simp [WC4]
  · show (1000 : Nat) + 24 ≤ M
    rw [M_val]
    omega

/-- Claim C4 (amended): release prepends the freed block right after the
sentinel head, and reuse is last-in-first-out: if allocate(s) succeeds
with payload A in a well-formed heap, A is released, and allocate(s2)
with 0 < s2 <= s follows immediately, the same address A is returned —
provided s <= SIZE_MAX - 23, so that the size rounding of neither call
wraps. -/
theorem claim_C4 {st st1 : AllocState} {L : List Nat} {s s2 A : Nat}
    (hinv : Inv st L) (hs2 : 0 < s2) (hle : s2 ≤ s) (hnof : s + 24 ≤ M)
    (h1 : m_malloc st s = some (some A, st1)) :
    (m_malloc (m_free st1 A) s2).map Prod.fst = some (some A) := by
  obtain ⟨hinv1, hA16, hsize⟩ := malloc_inv_some hinv h1
  obtain ⟨hfl1, hlive1, hnodup1, hlim1⟩ := hinv1
  obtain ⟨hAM, ⟨hh1, hh2, hh3, hh4, hh5⟩, hnot⟩ := hlive1 A (List.mem_cons_self _ _)
  have hclear : (m_free st1 A).hdr (hdrOf A) = st1.hdr (hdrOf A) - 1 := by
    show (internal_free st1 (hdrOf A)).hdr (hdrOf A) = _
    rw [internal_free_hdr_self]
    conv_lhs => rw [show st1.hdr (hdrOf A) = (st1.hdr (hdrOf A) - 1) + 1 by omega]
    rw [and_flag_set_clear_eq (by omega) (by omega)]
  have hsz2 : get_size (m_free st1 A) (hdrOf A) = st1.hdr (hdrOf A) - 1 :=
    get_size_eq_of hclear (by omega) (by omega)
  have hsz1 : get_size st1 (hdrOf A) = st1.hdr (hdrOf A) - 1 :=
    get_size_eq_of_flagged (d := st1.hdr (hdrOf A) - 1) (by omega) (by omega) (by omega)
  have hmono : GET_ALIGNED_SIZE s2 ≤ GET_ALIGNED_SIZE s :=
    GET_ALIGNED_SIZE_mono hle (by omega)
  rw [hsz1] at hsize
  have hfit : firstFit (m_free st1 A) (m_free st1 A).freeList (GET_ALIGNED_SIZE s2)
      = some (hdrOf A, st1.freeList) := by
    show firstFit _ (hdrOf A :: st1.freeList) _ = _
    apply firstFit_cons_fit
    rw [hsz2]
    omega
  obtain ⟨stF, hrun, _⟩ := malloc_fit (by omega : s2 ≠ 0) hfit
  rw [hrun]
  simp [payload_hdrOf hAM]

/-- Counterexample to C4 as frozen: with size s = SIZE_MAX the rounding
wraps (the block recorded for A only has total size 16), so the
immediately following allocate of the smaller size 9 (rounded size 32)
skips the just-released block and returns a different address. -/
theorem claim_C4_counterexample :
    (m_malloc WC4 (M - 1)).map Prod.fst = some (some 16) ∧
    (m_malloc (m_free (((m_malloc WC4 (M - 1)).getD (none, WC4)).2) 16) 9).map Prod.fst
      = some (some 32) ∧
    (some (some 32) : Option (Option Nat)) ≠ some (some 16) :=
  ⟨rfl, rfl, by decide⟩

/-- Witness for C4: allocate 16 bytes in WC4 (served by extension at
payload 32), release, then allocate 8 bytes: the same address 32 comes
back. -/
theorem claim_C4_witness :
    (m_malloc (m_free (((m_malloc WC4 16).getD (none, WC4)).2) 32) 8).map Prod.fst
      = some (some 32) :=
  @claim_C4 WC4 (((m_malloc WC4 16).getD (none, WC4)).2) [] 16 8 32
    WC4_inv (by decide) (by decide) (by rw [M_val]; omega) rfl

/-- A heap with one live (allocated) block: header address 8, data word
17 (total size 16, flag set), payload at 16 with usable bytes 16..23.
Memory holds the pattern a % 256 at address a. -/
def WC5 : AllocState :=
  { freeList := [], hdr := fun a => if a = 8 then 17 else 0,
    mem := fun a => a % 256, brk := 24, sbrkLimit := 1000 }

/-- C5 is a code bug: reallocating the 16-byte-total block at payload 16
(usable size 8) to size 32 copies min(old total size, requested size) =
16 bytes — the new payload byte at offset 8 (address 40) receives the
old byte at address 24, one byte past the old usable payload.  Under the
specified min(old usable, new usable) = 8 bytes, address 40 would have
kept its previous contents 40. -/
theorem claim_C5_bug :
    (m_realloc WC5 16 32).map Prod.fst = some (some 32) ∧
    (((m_realloc WC5 16 32).getD (none, WC5)).2).mem 40 = 24 ∧
    WC5.mem 40 = 40 :=
  ⟨rfl, rfl, rfl⟩

/-- A heap whose header words all read 48, used to show that release of
a null pointer writes through a wild header address. -/
def WC6 : AllocState :=
  { freeList := [], hdr := fun _ => 48, mem := fun _ => 0, brk := 8, sbrkLimit := 1000 }

/-- C6 is a code bug: m_free has no null check, so release(null) rewrites
the header at address 0 - HEADER_SIZE = 2^64 - 8 and prepends it to the
free list; a subsequent 16-byte allocation then returns payload address
0 instead of the address 16 it returns when the release(null) did not
happen — the call is not a no-op and corrupts the free list. -/
theorem claim_C6_bug :
    (m_free WC6 0).freeList = [M - 8] ∧ WC6.freeList = [] ∧
    (m_malloc (m_free WC6 0) 16).map Prod.fst = some (some 0) ∧
    (m_malloc WC6 16).map Prod.fst = some (some 16) :=
  ⟨rfl, rfl, rfl, rfl⟩

/-- C3 is a code bug, a downstream effect of the missing null check of
C6: the sequence release(null); release(null); allocate(8) stays within
the stated preconditions (the interface table admits release(null)),
yet in the resulting state — reachable, as the Reach conjunct shows —
the free list still contains header 2^64 - 8 with its allocation flag
set: each release(null) prepends that wild header (the second making it
a duplicate, just as the C list comes to loop on itself), and the
allocation flags it while its other occurrence stays linked from the
sentinel head.  The debug check_heap assertion (found allocated block
in free list) aborts on exactly this state.  For sequences that never
release null the claimed invariant does hold: reachLive_no_flagged. -/
theorem claim_C3_bug :
    Reach (((m_malloc (m_free (m_free WC6 0) 0) 8).getD (none, WC6)).2) [0] ∧
    (M - 8) ∈ (((m_malloc (m_free (m_free WC6 0) 0) 8).getD (none, WC6)).2).freeList ∧
    is_alloc (((m_malloc (m_free (m_free WC6 0) 0) 8).getD (none, WC6)).2) (M - 8) ≠ 0 := by
  refine ⟨?_, by decide, by decide⟩
  exact Reach.malloc_ok
    (Reach.release_null (Reach.release_null
      (Reach.init (fun _ => 48) (fun _ => 0) 8 1000 (by rw [M_val]; omega))))
    (show m_malloc (m_free (m_free WC6 0) 0) 8 =
      some (some 0, ((m_malloc (m_free (m_free WC6 0) 0) 8).getD (none, WC6)).2) from rfl)

/-- Claim C7: the division test of allocate_zeroed fires exactly when
count * element_size overflows size_t; on overflow null is returned with
the state untouched; otherwise the call returns exactly what
allocate(total) returns, and on success the first total bytes of the
payload are zero. -/
theorem claim_C7 (st : AllocState) (n s : Nat) :
    ((n ≠ 0 ∧ n * s % M / n ≠ s) ↔ M ≤ n * s) ∧
    (M ≤ n * s → m_calloc st n s = some (none, st)) ∧
    (n * s < M →
      (m_calloc st n s).map Prod.fst = (m_malloc st (n * s)).map Prod.fst) ∧
    (n * s < M → ∀ p st', m_calloc st n s = some (some p, st') →
      ∀ i, i < n * s → st'.mem (p + i) = 0) := by
  have hiff : (n ≠ 0 ∧ n * s % M / n ≠ s) ↔ M ≤ n * s := by
    constructor
    · rintro ⟨hn, hdiv⟩
      by_contra hc
      push_neg at hc
      rw [Nat.mod_eq_of_lt hc] at hdiv
      exact hdiv (Nat.mul_div_cancel_left s (Nat.pos_of_ne_zero hn))
    · intro hge
      have hn : n ≠ 0 := by
        intro hc
        rw [hc, Nat.zero_mul] at hge
        rw [M_val] at hge
        omega
      refine ⟨hn, ?_⟩
      intro hdiv
      have h2 := Nat.div_mul_le_self (n * s % M) n
      rw [hdiv] at h2
      have h3 : n * s % M < M := Nat.mod_lt _ (by rw [M_val]; omega)
      rw [Nat.mul_comm] at h2
      omega
  refine ⟨hiff, ?_, ?_, ?_⟩
  · intro hge
    simp only [m_calloc]
    rw [if_pos (hiff.mpr hge)]
  · intro hlt
    have hmod : n * s % M = n * s := Nat.mod_eq_of_lt hlt
    simp only [m_calloc]
    rw [if_neg ((not_congr hiff).mpr (by omega)), hmod]
    cases hm : m_malloc st (n * s) with
    | none => simp [hm]
    | some r =>
      obtain ⟨res, st1⟩ := r
      cases res with
      | none => simp [hm]
      | some p => simp [hm]
  · intro hlt p st' h i hi
    have hmod : n * s % M = n * s := Nat.mod_eq_of_lt hlt
    simp only [m_calloc] at h
    rw [if_neg ((not_congr hiff).mpr (by omega)), hmod] at h
    cases hm : m_malloc st (n * s) with
    | none => rw [hm] at h; simp at h
    | some r =>
      obtain ⟨res, st1⟩ := r
      rw [hm] at h
      cases res with
      | none => simp at h
      | some q =>
        injection h with h1
        injection h1 with h2 h3
        injection h2 with h4
        subst h4
        rw [← h3]
        show (memset st1 q 0 (n * s)).mem (q + i) = 0
        simp only [memset_mem]
        rw [if_pos ⟨by omega, by omega⟩]

/-- Witness for C7: count 2 with element size 2^63 + 8 overflows size_t
and allocate_zeroed returns null leaving the heap W0 unchanged. -/
theorem claim_C7_witness : m_calloc W0 2 (2 ^ 63 + 8) = some (none, W0) :=
  (claim_C7 W0 2 (2 ^ 63 + 8)).2.1 (by decide)

/-- Claim C8 (amended): for every size with 0 < size and
size + 23 < 2^64 (no wrap in the rounding), the required total block
size is the least multiple of the platform alignment that is at least
HEADER_SIZE + size. -/
theorem claim_C8 {s : Nat} (hs : 0 < s) (hnof : s + 23 < M) :
    GET_ALIGNED_SIZE s % ALIGNMENT = 0 ∧
    HEADER_SIZE + s ≤ GET_ALIGNED_SIZE s ∧
    ∀ m2, m2 % ALIGNMENT = 0 → HEADER_SIZE + s ≤ m2 → GET_ALIGNED_SIZE s ≤ m2 := by
  refine ⟨?_, GET_ALIGNED_SIZE_ge hnof, ?_⟩
  · simp only [ALIGNMENT]
    exact GET_ALIGNED_SIZE_mod s
  · intro m2 hm2 hge
    exact GET_ALIGNED_SIZE_least hnof hm2 hge

/-- Counterexample to C8 as frozen (for every size > 0): at size
SIZE_MAX the computed total block size wraps to 16, which cannot hold
the header plus SIZE_MAX payload bytes. -/
theorem claim_C8_counterexample :
    GET_ALIGNED_SIZE (M - 1) = 16 ∧
      ¬ HEADER_SIZE + (M - 1) ≤ GET_ALIGNED_SIZE (M - 1) := by
  constructor
  · decide
  · decide

/-- Witness for C8: size 5 rounds to 16, a multiple of 16 holding the
8-byte header plus 5 payload bytes. -/
theorem claim_C8_witness :
    GET_ALIGNED_SIZE 5 % ALIGNMENT = 0 ∧ HEADER_SIZE + 5 ≤ GET_ALIGNED_SIZE 5 := by
  have h := @claim_C8 5 (by decide) (by rw [M_val]; omega)
  exact ⟨h.1, h.2.1⟩

/-- Claim C9: when the internal allocate of reallocate fails, reallocate
returns null and the entire state — the old block, its header, its
payload bytes and the free list — is exactly as before the call (the
failed allocate itself never changes the state). -/
theorem claim_C9 {st st1 : AllocState} {ptr s : Nat} (hptr : ptr ≠ 0)
    (h : m_malloc st s = some (none, st1)) :
    m_realloc st ptr s = some (none, st) ∧ st1 = st := by
  have hst : st1 = st := malloc_none_state h
  subst hst
  refine ⟨?_, rfl⟩
  simp only [m_realloc, if_neg hptr, h]

/-- Witness for C9: in the heap WFail that cannot grow, reallocating
pointer 24 to size 16 fails and returns the state unchanged. -/
theorem claim_C9_witness : m_realloc WFail 24 16 = some (none, WFail) :=
  (@claim_C9 WFail WFail 24 16 (by decide) rfl).1

/-- Claim C10: for every size above SIZE_MAX - header_size -
(alignment - 1) = M - 24 the rounded total block size wraps modulo 2^64
to at most 16, strictly below the requested size; concretely, a request
of SIZE_MAX in the heap WC4 succeeds and hands out the free block whose
recorded total size is only 16. -/
theorem claim_C10 :
    (∀ s, M - 24 < s → s < M → GET_ALIGNED_SIZE s < s ∧ GET_ALIGNED_SIZE s ≤ 16) ∧
    (m_malloc WC4 (M - 1)).map Prod.fst = some (some 16) ∧
    get_size (((m_malloc WC4 (M - 1)).getD (none, WC4)).2) (hdrOf 16) = 16 ∧
    16 < M - 1 := by
  refine ⟨?_, rfl, by decide, by rw [M_val]; omega⟩
  intro s h1 h2
  have hov := GET_ALIGNED_SIZE_overflow h1 h2
  constructor
  · rw [M_val] at h1
    omega
  · exact hov

/-- Witness for C10: at size SIZE_MAX the rounded size is smaller than
the request. -/
theorem claim_C10_witness : GET_ALIGNED_SIZE (M - 1) < M - 1 :=
  (claim_C10.1 (M - 1) (by decide) (by decide)).1

end MMalloc
